import Mathlib

/-!
Shallow embedding of the account data model and address utilities of the
`@ethereumjs/util` package (`packages/util/src/account.ts`) and of the
EIP-2718 typed-transaction envelope helpers
(`packages/tx/src/capabilities/eip2718.ts`).

Byte strings are modelled as `List Nat` (each element a byte value),
JavaScript strings of ASCII characters as `List Nat` of character codes,
JavaScript `bigint` as `Int` (or `Nat` where the source only ever holds
non-negative values), and thrown JavaScript errors as the `Err` type
carried in `Except`.
-/

namespace EthUtil

/-- Error kinds of the library, following the specification's taxonomy:
`invalidInput` for `EthereumJSErrorWithoutCode` throws, `notLoaded` for the
accessor failures on absent fields, `missingData` for `isContract` with no
code information, `unsupported` for factory shape rejections. -/
inductive Err where
  | invalidInput (msg : String)
  | notLoaded (field : String)
  | missingData (msg : String)
  | unsupported (msg : String)
deriving DecidableEq, Repr

abbrev Bytes := List Nat

/-! ### Byte/integer conversion helpers.

Modelled from the spec: these live in `packages/util/src/bytes.ts`, which is
not part of the provided source; the spec (§6) fixes their behaviour —
integers are represented as their minimal big-endian byte form with zero
mapping to a zero-length string, and parsing is big-endian. -/

/-- Modelled from the spec: `bytesToBigInt` of `bytes.ts` — big-endian
unsigned integer parse of a byte string. -/
def bytesToBigInt (bs : Bytes) : Nat := bs.foldl (fun acc b => acc * 256 + b) 0

/-- Modelled from the spec: `bytesToInt` of `bytes.ts` — same big-endian
parse (the JS `number`/`bigint` distinction is not modelled). -/
def bytesToInt (bs : Bytes) : Nat := bytesToBigInt bs

/-- Fuelled helper for the minimal big-endian encoding (structural
recursion so that the kernel can evaluate it). -/
def natToBytesAux : Nat → Nat → Bytes
  | 0, _ => []
  | fuel + 1, n => if n = 0 then [] else natToBytesAux fuel (n / 256) ++ [n % 256]

/-- Modelled from the spec: `bigIntToUnpaddedBytes` of `bytes.ts` — minimal
big-endian byte form, zero mapping to the zero-length string. -/
def bigIntToUnpaddedBytes (n : Nat) : Bytes := natToBytesAux (n + 1) n

/-- Modelled from the spec: `intToUnpaddedBytes` of `bytes.ts`. -/
def intToUnpaddedBytes (n : Nat) : Bytes := natToBytesAux (n + 1) n

/-- Hex character code (lowercase) of a nibble value, as produced by
`bytesToHex`. -/
def hexDigitCode (n : Nat) : Nat := if n < 10 then 48 + n else 87 + n

/-- Modelled from the spec: `bytesToHex` of `bytes.ts` without its `0x`
prefix (the source applies `.slice(2)` to drop it): two lowercase hex
character codes per byte. -/
def bytesToHexCodes (bs : Bytes) : List Nat :=
  bs.flatMap (fun b => [hexDigitCode (b / 16), hexDigitCode (b % 16)])

/-- Value of a hex character code as `parseInt(c, 16)` would read it;
`none` models the JavaScript `NaN` outcome on a non-hex character. -/
def hexCharVal (c : Nat) : Option Nat :=
  if 48 ≤ c ∧ c ≤ 57 then some (c - 48)
  else if 97 ≤ c ∧ c ≤ 102 then some (c - 87)
  else if 65 ≤ c ∧ c ≤ 70 then some (c - 55)
  else none

/-- JavaScript `toLowerCase` on an ASCII character code. -/
def toLowerCode (c : Nat) : Nat := if 65 ≤ c ∧ c ≤ 90 then c + 32 else c

/-- JavaScript `toUpperCase` on an ASCII character code. -/
def toUpperCode (c : Nat) : Nat := if 97 ≤ c ∧ c ≤ 122 then c - 32 else c

/-- Character codes of a Lean string literal, for writing ASCII test
vectors compactly. -/
def strCodes (s : String) : List Nat := s.toList.map Char.toNat

/-- Hex-character test of the `[0-9a-fA-F]` character class. -/
def isHexCharCode (c : Nat) : Bool :=
  (48 ≤ c ∧ c ≤ 57) ∨ (97 ≤ c ∧ c ≤ 102) ∨ (65 ≤ c ∧ c ≤ 70)

/-- Modelled from the spec: the `isHexString` test behind
`assertIsHexString` of `helpers.ts` — a `0x`-prefixed string of hex
characters. -/
def isHexStringCodes (s : List Nat) : Bool :=
  match s with
  | c1 :: c2 :: rest => c1 = 48 && c2 = 120 && rest.all isHexCharCode
  | _ => false

/-- Modelled from the spec: `stripHexPrefix` of `internal.ts` — drops a
leading `0x` when present. -/
def strip0x (s : List Nat) : List Nat :=
  match s with
  | 48 :: 120 :: rest => rest
  | _ => s

/-- Decimal string (as character codes) of a natural number, modelling
JavaScript `BigInt.prototype.toString`. -/
def natToDecCodes (n : Nat) : List Nat := (Nat.toDigits 10 n).map Char.toNat

/-! ### Keccak-256

Modelled from the spec (§6): the third-party `keccak_256` dependency —
original Keccak padding, 256-bit output, rate 136 bytes — assumed
bit-exact. Lanes are 64-bit words held as `Nat` values below `2 ^ 64`. -/

def M64 : Nat := 2 ^ 64

def rotl64 (x n : Nat) : Nat := ((x <<< n) ||| (x >>> (64 - n))) % M64

def lane (A : List Nat) (i : Nat) : Nat := A.getD i 0

def keccakTheta (A : List Nat) : List Nat :=
  let C := (List.range 5).map (fun x =>
    lane A x ^^^ lane A (x + 5) ^^^ lane A (x + 10) ^^^ lane A (x + 15) ^^^ lane A (x + 20))
  let D := (List.range 5).map (fun x =>
    lane C ((x + 4) % 5) ^^^ rotl64 (lane C ((x + 1) % 5)) 1)
  (List.range 25).map (fun i => lane A i ^^^ lane D (i % 5))

def rhoRow0 : List Nat := [0, 1, 62, 28, 27]

def rhoRow1 : List Nat := [36, 44, 6, 55, 20]

def rhoRow2 : List Nat := [3, 10, 43, 25, 39]

def rhoRow3 : List Nat := [41, 45, 15, 21, 8]

def rhoRow4 : List Nat := [18, 2, 61, 56, 14]

/-- Rotation offsets of the rho step, flat-indexed by `x + 5 * y`. -/
def rhoOffsets : List Nat := rhoRow0 ++ rhoRow1 ++ rhoRow2 ++ rhoRow3 ++ rhoRow4

def keccakRhoPi (A : List Nat) : List Nat :=
  (List.range 25).foldl (fun B i =>
    let x := i % 5
    let y := i / 5
    let j := y + 5 * ((2 * x + 3 * y) % 5)
    B.set j (rotl64 (lane A i) (rhoOffsets.getD i 0))) (List.replicate 25 0)

def keccakChi (B : List Nat) : List Nat :=
  (List.range 25).map (fun i =>
    let x := i % 5
    let y := i / 5
    lane B i ^^^ ((lane B ((x + 1) % 5 + 5 * y) ^^^ (M64 - 1)) &&& lane B ((x + 2) % 5 + 5 * y)))

def roundConstants : List Nat :=
  [0x0000000000000001, 0x0000000000008082, 0x800000000000808a, 0x8000000080008000,
   0x000000000000808b, 0x0000000080000001, 0x8000000080008081, 0x8000000000008009,
   0x000000000000008a, 0x0000000000000088, 0x0000000080008009, 0x000000008000000a,
   0x000000008000808b, 0x800000000000008b, 0x8000000000008089, 0x8000000000008003,
   0x8000000000008002, 0x8000000000000080, 0x000000000000800a, 0x800000008000000a,
   0x8000000080008081, 0x8000000000008080, 0x0000000080000001, 0x8000000080008008]

def keccakRound (A : List Nat) (rc : Nat) : List Nat :=
  let B := keccakChi (keccakRhoPi (keccakTheta A))
  B.set 0 (lane B 0 ^^^ rc)

def keccakF (A : List Nat) : List Nat := roundConstants.foldl keccakRound A

def bytesToLane (bs : Bytes) : Nat := bs.foldr (fun b acc => acc * 256 + b) 0

def laneToBytes (n : Nat) : Bytes := (List.range 8).map (fun i => (n >>> (8 * i)) % 256)

def absorbBlock (st : List Nat) (block : Bytes) : List Nat :=
  keccakF ((List.range 25).map (fun i =>
    lane st i ^^^ bytesToLane ((block.drop (8 * i)).take 8)))

def absorbBlocks (st : List Nat) : Nat → Bytes → List Nat
  | 0, _ => st
  | n + 1, bs => absorbBlocks (absorbBlock st (bs.take 136)) n (bs.drop 136)

def keccakPad (bs : Bytes) : Bytes :=
  let q := 136 - bs.length % 136
  if q = 1 then bs ++ [0x81] else bs ++ [0x01] ++ List.replicate (q - 2) 0 ++ [0x80]

/-- Keccak-256 hash of a byte string. -/
def keccak256 (bs : Bytes) : Bytes :=
  let padded := keccakPad bs
  let st := absorbBlocks (List.replicate 25 0) (padded.length / 136) padded
  laneToBytes (lane st 0) ++ laneToBytes (lane st 1) ++ laneToBytes (lane st 2) ++
    laneToBytes (lane st 3)

/-! ### RLP

Modelled from the spec (§6): the third-party `@ethereumjs/rlp` codec — a
single byte below `0x80` encodes as itself, other byte strings and lists
carry a length-prefix header. Decoding is fuelled (structural recursion)
and rejects malformed input. -/

inductive Item where
  | bytes (bs : Bytes)
  | list (items : List Item)

/-- RLP header for a payload of the given length: short form below 56,
long form with a big-endian length-of-length above. -/
def rlpLenHeader (base : Nat) (len : Nat) : Bytes :=
  if len < 56 then [base + len]
  else
    let lenBytes := bigIntToUnpaddedBytes len
    (base + 55 + lenBytes.length) :: lenBytes

def rlpEncodeBytes (bs : Bytes) : Bytes :=
  match bs with
  | [b] => if b < 0x80 then [b] else rlpLenHeader 0x80 1 ++ [b]
  | _ => rlpLenHeader 0x80 bs.length ++ bs

mutual

def rlpEncode : Item → Bytes
  | .bytes bs => rlpEncodeBytes bs
  | .list items =>
    let payload := rlpEncodeItems items
    rlpLenHeader 0xc0 payload.length ++ payload

/-- Concatenation of the encodings of a list of items (the payload of a
list encoding). -/
def rlpEncodeItems : List Item → Bytes
  | [] => []
  | i :: is => rlpEncode i ++ rlpEncodeItems is

end

mutual

/-- Fuelled RLP decoding of one item, returning the remaining bytes. -/
def rlpDecodeOne : Nat → Bytes → Except Err (Item × Bytes)
  | 0, _ => .error (.invalidInput "rlp: out of fuel")
  | _ + 1, [] => .error (.invalidInput "rlp: empty input")
  | fuel + 1, b :: rest =>
    if b < 0x80 then .ok (.bytes [b], rest)
    else if b < 0xb8 then
      let len := b - 0x80
      if rest.length < len then .error (.invalidInput "rlp: input too short")
      else if len = 1 ∧ rest.headD 0 < 0x80 then
        .error (.invalidInput "rlp: non-canonical single byte")
      else .ok (.bytes (rest.take len), rest.drop len)
    else if b < 0xc0 then
      let ll := b - 0xb7
      let len := bytesToBigInt (rest.take ll)
      if rest.length < ll + len then .error (.invalidInput "rlp: input too short")
      else if len < 56 then .error (.invalidInput "rlp: non-canonical length")
      else .ok (.bytes ((rest.drop ll).take len), rest.drop (ll + len))
    else if b < 0xf8 then
      let len := b - 0xc0
      if rest.length < len then .error (.invalidInput "rlp: input too short")
      else do
        let items ← rlpDecodeList fuel (rest.take len)
        .ok (.list items, rest.drop len)
    else
      let ll := b - 0xf7
      let len := bytesToBigInt (rest.take ll)
      if rest.length < ll + len then .error (.invalidInput "rlp: input too short")
      else if len < 56 then .error (.invalidInput "rlp: non-canonical length")
      else do
        let items ← rlpDecodeList fuel ((rest.drop ll).take len)
        .ok (.list items, rest.drop (ll + len))

/-- Fuelled RLP decoding of a concatenated sequence of items. -/
def rlpDecodeList : Nat → Bytes → Except Err (List Item)
  | 0, _ => .error (.invalidInput "rlp: out of fuel")
  | _ + 1, [] => .ok []
  | fuel + 1, bs => do
    let (item, rest) ← rlpDecodeOne fuel bs
    let items ← rlpDecodeList fuel rest
    .ok (item :: items)

end

/-- RLP decoding of a complete byte string (the whole input must be
consumed). -/
def rlpDecode (bs : Bytes) : Except Err Item := do
  let (item, rest) ← rlpDecodeOne (bs.length + 1) bs
  match rest with
  | [] => .ok item
  | _ => .error (.invalidInput "rlp: trailing bytes")

/-! ### Constants

Modelled from the spec (§6): `KECCAK256_NULL` (keccak-256 of zero-length
input) and `KECCAK256_RLP` (keccak-256 of the RLP encoding of the empty
string) of `constants.ts`, which is not part of the provided source; the
spec names both hex values. -/

def KECCAK256_NULL : Bytes :=
  [0xc5, 0xd2, 0x46, 0x01, 0x86, 0xf7, 0x23, 0x3c, 0x92, 0x7e, 0x7d, 0xb2, 0xdc, 0xc7, 0x03,
   0xc0, 0xe5, 0x00, 0xb6, 0x53, 0xca, 0x82, 0x27, 0x3b, 0x7b, 0xfa, 0xd8, 0x04, 0x5d, 0x85,
   0xa4, 0x70]

def KECCAK256_RLP : Bytes :=
  [0x56, 0xe8, 0x1f, 0x17, 0x1b, 0xcc, 0x55, 0xa6, 0xff, 0x83, 0x45, 0xe6, 0x92, 0xc0, 0xf8,
   0x6e, 0x5b, 0x48, 0xe0, 0x1b, 0x99, 0x6c, 0xad, 0xc0, 0x01, 0x62, 0x2f, 0xb5, 0xe3, 0x63,
   0xb4, 0x21]

/-- Modelled from the spec: `equalsBytes` of `bytes.ts` — byte-string
equality. -/
def equalsBytes (a b : Bytes) : Bool := decide (a = b)

/-! ### Account record model (`account.ts`)

Each backing field is `Option`-valued: `none` models the JavaScript `null`
absent marker of the partial/witness representation. -/

structure Account where
  _nonce : Option Int := none
  _balance : Option Int := none
  _storageRoot : Option Bytes := none
  _codeHash : Option Bytes := none
  _codeSize : Option Int := none
  _version : Option Int := none
deriving DecidableEq, Repr

/-- Getter `Account.nonce`: fails with `NotLoaded` on an absent field. -/
def Account.nonce (a : Account) : Except Err Int :=
  match a._nonce with
  | some v => .ok v
  | none => .error (.notLoaded "nonce")

/-- Getter `Account.balance`. -/
def Account.balance (a : Account) : Except Err Int :=
  match a._balance with
  | some v => .ok v
  | none => .error (.notLoaded "balance")

/-- Getter `Account.storageRoot`. -/
def Account.storageRoot (a : Account) : Except Err Bytes :=
  match a._storageRoot with
  | some v => .ok v
  | none => .error (.notLoaded "storageRoot")

/-- Getter `Account.codeHash`. -/
def Account.codeHash (a : Account) : Except Err Bytes :=
  match a._codeHash with
  | some v => .ok v
  | none => .error (.notLoaded "codeHash")

/-- Getter `Account.codeSize`. -/
def Account.codeSize (a : Account) : Except Err Int :=
  match a._codeSize with
  | some v => .ok v
  | none => .error (.notLoaded "codeSize")

/-- Getter `Account.version`. -/
def Account.version (a : Account) : Except Err Int :=
  match a._version with
  | some v => .ok v
  | none => .error (.notLoaded "version")

/-- The `_validate` checks of the constructor, in source order; a present
field failing its bound throws, an absent field is skipped. -/
def Account._validate (a : Account) : Except Err Unit :=
  if (match a._nonce with | some n => decide (n < 0) | none => false) then
    .error (.invalidInput "nonce must be greater than zero")
  else if (match a._balance with | some b => decide (b < 0) | none => false) then
    .error (.invalidInput "balance must be greater than zero")
  else if (match a._storageRoot with | some s => decide (s.length ≠ 32) | none => false) then
    .error (.invalidInput "storageRoot must have a length of 32")
  else if (match a._codeHash with | some c => decide (c.length ≠ 32) | none => false) then
    .error (.invalidInput "codeHash must have a length of 32")
  else if (match a._codeSize with | some c => decide (c < 0) | none => false) then
    .error (.invalidInput "codeSize must be greater than zero")
  else .ok ()

/-- `Account.isContract`: fails with `MissingData` when both code fields
are absent; otherwise true iff a present codeHash differs from
`KECCAK256_NULL` or a present codeSize is non-zero. -/
def Account.isContract (a : Account) : Except Err Bool :=
  if a._codeHash = none ∧ a._codeSize = none then
    .error (.missingData "Insufficient data as codeHash=null and codeSize=null")
  else
    .ok ((match a._codeHash with
          | some h => !equalsBytes h KECCAK256_NULL
          | none => false) ||
         (match a._codeSize with
          | some s => decide (s ≠ 0)
          | none => false))

/-- The base `Account` constructor body: the six arguments are the
already-defaulted JavaScript parameters (`none` models `null`). The
codeSize-inference step runs `isContract` on the partially-built object
(codeSize still unset), then `_validate` runs once. -/
def newAccount (nonce balance : Option Int) (storageRoot codeHash : Option Bytes)
    (codeSize version : Option Int) : Except Err Account := do
  let a0 : Account :=
    { _nonce := nonce, _balance := balance, _storageRoot := storageRoot,
      _codeHash := codeHash, _codeSize := none, _version := none }
  let codeSize' ←
    if codeSize = none ∧ codeHash ≠ none then do
      let contract ← a0.isContract
      pure (if contract then codeSize else some 0)
    else pure codeSize
  let a := { a0 with _codeSize := codeSize', _version := version }
  a._validate
  pure a

/-- `Account.raw`: the canonical four-field byte form, reading each field
through its (fallible) getter in source order. -/
def Account.raw (a : Account) : Except Err (List Bytes) := do
  let n ← a.nonce
  let b ← a.balance
  let s ← a.storageRoot
  let c ← a.codeHash
  pure [bigIntToUnpaddedBytes n.toNat, bigIntToUnpaddedBytes b.toNat, s, c]

/-- `Account.serialize`: RLP encoding of `raw()`. -/
def Account.serialize (a : Account) : Except Err Bytes := do
  let r ← a.raw
  pure (rlpEncode (.list (r.map .bytes)))

/-- `Account.serializeWithPartialInfo`: each field becomes its own RLP
sub-list, `[0]` when absent or `[1, value]` when present, in the fixed
field order. -/
def Account.serializeWithPartialInfo (a : Account) : Bytes :=
  let zeroEncoded := intToUnpaddedBytes 0
  let oneEncoded := intToUnpaddedBytes 1
  let f1 := match a._nonce with
    | some n => [oneEncoded, bigIntToUnpaddedBytes n.toNat]
    | none => [zeroEncoded]
  let f2 := match a._balance with
    | some b => [oneEncoded, bigIntToUnpaddedBytes b.toNat]
    | none => [zeroEncoded]
  let f3 := match a._storageRoot with
    | some s => [oneEncoded, s]
    | none => [zeroEncoded]
  let f4 := match a._codeHash with
    | some c => [oneEncoded, c]
    | none => [zeroEncoded]
  let f5 := match a._codeSize with
    | some c => [oneEncoded, intToUnpaddedBytes c.toNat]
    | none => [zeroEncoded]
  let f6 := match a._version with
    | some v => [oneEncoded, intToUnpaddedBytes v.toNat]
    | none => [zeroEncoded]
  rlpEncode (.list ([f1, f2, f3, f4, f5, f6].map (fun f => .list (f.map .bytes))))

/-- `Account.isEmpty` with the source's short-circuit evaluation order:
each disjunct of the early-return condition is evaluated left to right,
and the getters it reads may fail. -/
def Account.isEmpty (a : Account) : Except Err Bool := do
  let d1 ←
    match a._balance with
    | some _ => do
      let b ← a.balance
      pure (decide (b ≠ 0))
    | none => pure false
  if d1 then pure false
  else do
    let d2 ←
      if a._nonce = none then do
        let n ← a.nonce
        pure (decide (n ≠ 0))
      else pure false
    if d2 then pure false
    else do
      let d3 ←
        match a._codeHash with
        | some _ => do
          let c ← a.codeHash
          pure (!equalsBytes c KECCAK256_NULL)
        | none => pure false
      if d3 then pure false
      else do
        let b ← a.balance
        if b ≠ 0 then pure false
        else do
          let n ← a.nonce
          if n ≠ 0 then pure false
          else do
            let c ← a.codeHash
            pure (equalsBytes c KECCAK256_NULL)

/-- The JavaScript `as Uint8Array` cast applied to decoded RLP items; the
account encodings only ever put byte strings where the cast is applied, so
the `.list` branch is arbitrary. -/
def itemAsBytes : Item → Bytes
  | .bytes bs => bs
  | .list _ => []

/-- `handleNullIndicator`: presence decoding of one per-field sub-list. -/
def handleNullIndicator (values : List Item) : Except Err (Option Item) :=
  match values with
  | [] => .ok none
  | v0 :: rest =>
    let nullIndicator := bytesToInt (itemAsBytes v0)
    if nullIndicator = 0 then .ok none
    else if nullIndicator > 1 then
      .error (.invalidInput ("Invalid isNullIndicator=" ++ toString nullIndicator))
    else
      match rest with
      | [] => .error (.invalidInput ("Invalid values length=" ++ toString values.length))
      | v1 :: _ => .ok (some v1)

/-- Input descriptor for `createPartialAccount`: the outer `Option` models
an omitted (JavaScript `undefined`) field, the inner one the explicit
`null` absent marker; `BigIntLike`/`BytesLike` coercions of present values
are modelled as the identity on non-negative integers / byte strings. -/
structure PartialAccountData where
  nonce : Option (Option Nat) := none
  balance : Option (Option Nat) := none
  storageRoot : Option (Option Bytes) := none
  codeHash : Option (Option Bytes) := none
  codeSize : Option (Option Nat) := none
  version : Option (Option Nat) := none
deriving DecidableEq, Repr

/-- JavaScript default-parameter resolution for the base constructor: an
omitted argument takes the default, `null` is retained, a present value is
coerced. -/
def defaultedIntArg (x : Option (Option Nat)) (dflt : Int) : Option Int :=
  match x with
  | none => some dflt
  | some none => none
  | some (some v) => some (v : Int)

/-- Default-parameter resolution for the byte-string fields. -/
def defaultedBytesArg (x : Option (Option Bytes)) (dflt : Bytes) : Option Bytes :=
  match x with
  | none => some dflt
  | some none => none
  | some (some v) => some v

/-- `createPartialAccount`: rejects the all-null shape, otherwise
constructs through the base constructor with defaults for omitted
fields. -/
def createPartialAccount (d : PartialAccountData) : Except Err Account :=
  if d.nonce = some none ∧ d.balance = some none ∧ d.storageRoot = some none ∧
     d.codeHash = some none ∧ d.codeSize = some none ∧ d.version = some none then
    .error (.unsupported "All partial fields null")
  else
    newAccount (defaultedIntArg d.nonce 0) (defaultedIntArg d.balance 0)
      (defaultedBytesArg d.storageRoot KECCAK256_RLP)
      (defaultedBytesArg d.codeHash KECCAK256_NULL)
      (defaultedIntArg d.codeSize 0) (defaultedIntArg d.version 0)

/-- `createPartialAccountFromRLP`: decodes, checks the outer shape, maps
`handleNullIndicator` over the six per-field sub-lists and delegates to
`createPartialAccount`. Lists whose arity differs from six put the
JavaScript original outside its defined behaviour (destructuring's
`undefined` values crash the later conversions); that corner is modelled
as a failure. -/
def createPartialAccountFromRLP (serialized : Bytes) : Except Err Account := do
  let decoded ← rlpDecode serialized
  match decoded with
  | .bytes _ => .error (.invalidInput "Invalid serialized account input. Must be array")
  | .list values =>
    if values.any (fun it => match it with | .bytes _ => true | .list _ => false) then
      .error (.invalidInput "Invalid partial encoding. Each item must be an array")
    else do
      let raws ← values.mapM (fun it =>
        handleNullIndicator (match it with | .list elems => elems | .bytes _ => []))
      match raws with
      | [nonceRaw, balanceRaw, storageRootRaw, codeHashRaw, codeSizeRaw, versionRaw] =>
        createPartialAccount
          { nonce := some (nonceRaw.map (fun it => bytesToBigInt (itemAsBytes it)))
            balance := some (balanceRaw.map (fun it => bytesToBigInt (itemAsBytes it)))
            storageRoot := some (storageRootRaw.map itemAsBytes)
            codeHash := some (codeHashRaw.map itemAsBytes)
            codeSize := some (codeSizeRaw.map (fun it => bytesToInt (itemAsBytes it)))
            version := some (versionRaw.map (fun it => bytesToInt (itemAsBytes it))) }
      | _ => .error (.invalidInput "Invalid partial account arity")

/-! ### Address derivation and validation (`account.ts`) -/

/-- Last 20 bytes of a hash, the `subarray(-20)` of the source. -/
def last20 (bs : Bytes) : Bytes := bs.drop (bs.length - 20)

/-- Case-adjustment loop of `toChecksumAddress`: walks the address and the
hash hex characters in lockstep; when the hash is exhausted the address
character is left unchanged (the JavaScript `parseInt(undefined, 16)`
comparison is false). -/
def checksumMap : List Nat → List Nat → List Nat
  | _, [] => []
  | [], a :: as => a :: checksumMap [] as
  | h :: hs, a :: as =>
    (if (match hexCharVal h with | some v => decide (8 ≤ v) | none => false) then
      toUpperCode a
    else a) :: checksumMap hs as

/-- Prepended material of the EIP-1191 chain-scoped checksum: the decimal
rendering of the chain id followed by the literal characters `0x`; empty
when no chain id is supplied. -/
def chainPfx : Option Nat → List Nat
  | none => []
  | some chainId => natToDecCodes chainId ++ [48, 120]

/-- `toChecksumAddress`: lowercases the stripped address, hashes it (with
the optional EIP-1191 chain-id prefix) and uppercases exactly the
characters whose hash hex digit is at least 8. -/
def toChecksumAddress (hexAddress : List Nat) (eip1191ChainId : Option Nat) :
    Except Err (List Nat) :=
  if !isHexStringCodes hexAddress then
    .error (.invalidInput "hex string expected")
  else
    let address := (strip0x hexAddress).map toLowerCode
    let hash := bytesToHexCodes (keccak256 (chainPfx eip1191ChainId ++ address))
    .ok ([48, 120] ++ checksumMap hash address)

/-- `generateAddress` (CREATE): zero-valued nonce bytes are replaced by the
empty byte string before RLP encoding; non-zero nonce bytes are used as
given. -/
def generateAddress (fromAddr nonce : Bytes) : Bytes :=
  if bytesToBigInt nonce = 0 then
    last20 (keccak256 (rlpEncode (.list [.bytes fromAddr, .bytes []])))
  else
    last20 (keccak256 (rlpEncode (.list [.bytes fromAddr, .bytes nonce])))

/-- `generateAddress2` (CREATE2): length-checks `from` and `salt`, then
hashes `0xff ‖ from ‖ salt ‖ keccak256(initCode)`. -/
def generateAddress2 (fromAddr salt initCode : Bytes) : Except Err Bytes :=
  if fromAddr.length ≠ 20 then .error (.invalidInput "Expected from to be of length 20")
  else if salt.length ≠ 32 then .error (.invalidInput "Expected salt to be of length 32")
  else .ok (last20 (keccak256 (0xff :: (fromAddr ++ salt ++ keccak256 initCode))))

/-! ### State-sync slim account body codec (`account.ts`) -/

/-- `accountBodyFromSlim`: expands zero-length storageRoot/codeHash to the
default constants. -/
def accountBodyFromSlim (body : Bytes × Bytes × Bytes × Bytes) :
    Bytes × Bytes × Bytes × Bytes :=
  let (nonce, balance, storageRoot, codeHash) := body
  (nonce, balance,
   if storageRoot.length = 0 then KECCAK256_RLP else storageRoot,
   if codeHash.length = 0 then KECCAK256_NULL else codeHash)

/-- `accountBodyToSlim`: replaces default-valued storageRoot/codeHash with
zero-length byte strings. -/
def accountBodyToSlim (body : Bytes × Bytes × Bytes × Bytes) :
    Bytes × Bytes × Bytes × Bytes :=
  let (nonce, balance, storageRoot, codeHash) := body
  (nonce, balance,
   if equalsBytes storageRoot KECCAK256_RLP then [] else storageRoot,
   if equalsBytes codeHash KECCAK256_NULL then [] else codeHash)

/-! ### EIP-2718 envelope helpers (`eip2718.ts`) -/

/-- Minimal model of the `EIP2718CompatibleTx` capability interface used by
`validateYParity`: only the optional y-parity value `v` is read. -/
structure EIP2718CompatibleTx where
  v : Option Int := none
deriving DecidableEq, Repr

/-- Modelled from the spec: `errorMsg` of `legacy.ts` is not part of the
provided source; the spec records the failure as `InvalidInput` carrying
the stated message, so the transaction-context decoration is modelled as
the identity on the message. -/
def errorMsg (_tx : EIP2718CompatibleTx) (msg : String) : String := msg

/-- `validateYParity`: accepts an absent `v` or a `v` equal to 0 or 1,
fails with `InvalidInput` otherwise; the transaction itself is not
modified (the function returns unit). -/
def validateYParity (tx : EIP2718CompatibleTx) : Except Err Unit :=
  match tx.v with
  | none => .ok ()
  | some v =>
    if v ≠ 0 ∧ v ≠ 1 then
      .error (.invalidInput
        (errorMsg tx "The y-parity of the transaction should either be 0 or 1"))
    else .ok ()

/-- Input of the C1 round trip: nonce present with value 5, the other five
fields given as the explicit absent marker. -/
def roundTripInput : PartialAccountData :=
  { nonce := some (some 5), balance := some none, storageRoot := some none,
    codeHash := some none, codeSize := some none, version := some none }

/-- Account produced by the C1 round trip. -/
def roundTrippedAccount : Account :=
  { _nonce := some 5, _balance := none, _storageRoot := none, _codeHash := none,
    _codeSize := none, _version := none }

/-- Bound violation of a present constructor argument: a present nonce,
balance or codeSize is negative, or a present storageRoot or codeHash is
not exactly 32 bytes. -/
def fieldBoundViolation (n b : Option Int) (sr ch : Option Bytes) (cs : Option Int) : Prop :=
  (∃ x, n = some x ∧ x < 0) ∨ (∃ x, b = some x ∧ x < 0) ∨
  (∃ u, sr = some u ∧ u.length ≠ 32) ∨ (∃ u, ch = some u ∧ u.length ≠ 32) ∨
  (∃ x, cs = some x ∧ x < 0)

/-- Nibble `i` (big-endian hex-digit position) of a byte string: the high
or low half of byte `i / 2`. -/
def hexNibble (bs : Bytes) (i : Nat) : Nat :=
  if i % 2 = 0 then bs.getD (i / 2) 0 / 16 else bs.getD (i / 2) 0 % 16

instance {ε α : Type} [DecidableEq ε] [DecidableEq α] : DecidableEq (Except ε α) :=
  fun a b =>
    match a, b with
    | .ok x, .ok y =>
      if h : x = y then .isTrue (by rw [h]) else .isFalse (by simp [h])
    | .error x, .error y =>
      if h : x = y then .isTrue (by rw [h]) else .isFalse (by simp [h])
    | .ok _, .error _ => .isFalse (by simp)
    | .error _, .ok _ => .isFalse (by simp)

/-! ## Claims -/

/-- C4: for every per-field sub-list handed to `handleNullIndicator`, a
missing first element or a first element decoding to 0 yields the absent
marker; a first element decoding to 1 yields the second element as the
present value, failing with `InvalidInput` ("Invalid values length") when
the sub-list has fewer than two elements; and a first element decoding to
any integer greater than 1 fails with `InvalidInput`
("Invalid isNullIndicator=…"). -/
theorem claim4_handleNullIndicator :
    (handleNullIndicator [] = .ok none) ∧
    (∀ (v : Bytes) (rest : List Item), bytesToInt v = 0 →
      handleNullIndicator (.bytes v :: rest) = .ok none) ∧
    (∀ (v : Bytes) (w : Item) (rest : List Item), bytesToInt v = 1 →
      handleNullIndicator (.bytes v :: w :: rest) = .ok (some w)) ∧
    (∀ (v : Bytes), bytesToInt v = 1 →
      handleNullIndicator [.bytes v] =
        .error (.invalidInput "Invalid values length=1")) ∧
    (∀ (v : Bytes) (rest : List Item), bytesToInt v > 1 →
      handleNullIndicator (.bytes v :: rest) =
        .error (.invalidInput ("Invalid isNullIndicator=" ++ toString (bytesToInt v)))) := by
  refine ⟨rfl, ?_, ?_, ?_, ?_⟩
  · intro v rest h
    simp [handleNullIndicator, itemAsBytes, h]
  · intro v w rest h
    simp [handleNullIndicator, itemAsBytes, h]
  · intro v h
    simp [handleNullIndicator, itemAsBytes, h]
    rfl
  · intro v rest h
    match rest with
    | [] => simp [handleNullIndicator, itemAsBytes, Nat.ne_of_gt (Nat.lt_of_lt_of_le Nat.zero_lt_one (Nat.le_of_lt h)), h]
    | w :: ws => simp [handleNullIndicator, itemAsBytes, Nat.ne_of_gt (Nat.lt_of_lt_of_le Nat.zero_lt_one (Nat.le_of_lt h)), h]

/-- Closed instances of C4 obtained from `claim4_handleNullIndicator`. -/
theorem claim4_witness :
    (handleNullIndicator [.bytes [], .bytes [9]] = .ok none) ∧
    (handleNullIndicator [.bytes [1], .bytes [9]] = .ok (some (.bytes [9]))) ∧
    (handleNullIndicator [.bytes [1]] = .error (.invalidInput "Invalid values length=1")) ∧
    (handleNullIndicator [.bytes [2]] =
      .error (.invalidInput ("Invalid isNullIndicator=" ++ toString (bytesToInt [2])))) :=
  ⟨claim4_handleNullIndicator.2.1 [] [.bytes [9]] (by decide),
   claim4_handleNullIndicator.2.2.1 [1] (.bytes [9]) [] (by decide),
   claim4_handleNullIndicator.2.2.2.1 [1] (by decide),
   claim4_handleNullIndicator.2.2.2.2 [2] [] (by decide)⟩

/-- C5: `generateAddress2` fails with `InvalidInput` ("Expected from to be
of length 20") whenever `from` is not exactly 20 bytes, fails with
`InvalidInput` ("Expected salt to be of length 32") whenever `salt` is not
exactly 32 bytes, and for every 20-byte `from`, 32-byte `salt` and
arbitrary `initCode` returns the low-order 20 bytes of keccak-256 of
`0xff ‖ from ‖ salt ‖ keccak256(initCode)`. -/
theorem claim5_generateAddress2 :
    (∀ f s i : Bytes, f.length ≠ 20 →
      generateAddress2 f s i = .error (.invalidInput "Expected from to be of length 20")) ∧
    (∀ f s i : Bytes, f.length = 20 → s.length ≠ 32 →
      generateAddress2 f s i = .error (.invalidInput "Expected salt to be of length 32")) ∧
    (∀ f s i : Bytes, f.length = 20 → s.length = 32 →
      generateAddress2 f s i =
        .ok (last20 (keccak256 (0xff :: (f ++ s ++ keccak256 i))))) := by
  refine ⟨?_, ?_, ?_⟩
  · intro f s i h
    simp [generateAddress2, h]
  · intro f s i hf hs
    simp [generateAddress2, hf, hs]
  · intro f s i hf hs
    simp [generateAddress2, hf, hs]

/-- Closed instance of C5 obtained from `claim5_generateAddress2`. -/
theorem claim5_witness :
    (generateAddress2 [] [] [] = .error (.invalidInput "Expected from to be of length 20")) ∧
    (generateAddress2 (List.replicate 20 0) [] [] =
      .error (.invalidInput "Expected salt to be of length 32")) ∧
    (generateAddress2 (List.replicate 20 0) (List.replicate 32 0) [] =
      .ok (last20 (keccak256 (0xff :: (List.replicate 20 0 ++ List.replicate 32 0 ++ keccak256 []))))) :=
  ⟨claim5_generateAddress2.1 [] [] [] (by decide),
   claim5_generateAddress2.2.1 (List.replicate 20 0) [] [] (by decide) (by decide),
   claim5_generateAddress2.2.2 (List.replicate 20 0) (List.replicate 32 0) [] (by decide)
     (by decide)⟩

/-- C6: `generateAddress` returns the low-order 20 bytes of keccak-256 of
the RLP encoding of `[from, <empty byte string>]` whenever the nonce bytes
decode to the integer 0 (including the non-minimal single `0x00` byte),
and otherwise of the RLP encoding of `[from, nonce]` with the nonce bytes
used exactly as given. -/
theorem claim6_generateAddress :
    (∀ f n : Bytes, bytesToBigInt n = 0 →
      generateAddress f n = last20 (keccak256 (rlpEncode (.list [.bytes f, .bytes []])))) ∧
    (∀ f n : Bytes, bytesToBigInt n ≠ 0 →
      generateAddress f n = last20 (keccak256 (rlpEncode (.list [.bytes f, .bytes n])))) ∧
    (∀ f : Bytes, generateAddress f [0] = generateAddress f []) := by
  refine ⟨?_, ?_, ?_⟩
  · intro f n h
    simp [generateAddress, h]
  · intro f n h
    simp [generateAddress, h]
  · intro f
    simp [generateAddress, bytesToBigInt]

/-- Closed instance of C6 obtained from `claim6_generateAddress`. -/
theorem claim6_witness :
    (generateAddress [7] [0] = last20 (keccak256 (rlpEncode (.list [.bytes [7], .bytes []])))) ∧
    (generateAddress [7] [1] = last20 (keccak256 (rlpEncode (.list [.bytes [7], .bytes [1]])))) :=
  ⟨claim6_generateAddress.1 [7] [0] (by decide),
   claim6_generateAddress.2.1 [7] [1] (by decide)⟩

/-- C9: `validateYParity` accepts a transaction whose y-parity `v` is
absent, 0 or 1, and fails with `InvalidInput` ("The y-parity of the
transaction should either be 0 or 1") for every other present value,
leaving the transaction unchanged (the function only reads `v`). -/
theorem claim9_validateYParity :
    (validateYParity { v := none } = .ok ()) ∧
    (validateYParity { v := some 0 } = .ok ()) ∧
    (validateYParity { v := some 1 } = .ok ()) ∧
    (∀ x : Int, x ≠ 0 → x ≠ 1 →
      validateYParity { v := some x } =
        .error (.invalidInput "The y-parity of the transaction should either be 0 or 1")) := by
  refine ⟨rfl, rfl, rfl, ?_⟩
  intro x h0 h1
  simp [validateYParity, errorMsg, h0, h1]

/-- Closed instances of C9 at the values 2, 27 and 28, obtained from
`claim9_validateYParity`. -/
theorem claim9_witness :
    (validateYParity { v := some 2 } =
      .error (.invalidInput "The y-parity of the transaction should either be 0 or 1")) ∧
    (validateYParity { v := some 27 } =
      .error (.invalidInput "The y-parity of the transaction should either be 0 or 1")) ∧
    (validateYParity { v := some 28 } =
      .error (.invalidInput "The y-parity of the transaction should either be 0 or 1")) :=
  ⟨claim9_validateYParity.2.2.2 2 (by decide) (by decide),
   claim9_validateYParity.2.2.2 27 (by decide) (by decide),
   claim9_validateYParity.2.2.2 28 (by decide) (by decide)⟩

/-- C1: building an Account by `createPartialAccount` with nonce present
(value 5) and the other five fields explicitly absent, then applying
`serializeWithPartialInfo()` and `createPartialAccountFromRLP()`, yields
an Account whose nonce accessor returns 5 and whose balance, storageRoot,
codeHash, codeSize and version accessors each fail with `NotLoaded`. -/
theorem claim1_partial_roundtrip :
    ((createPartialAccount roundTripInput).bind
      (fun a => createPartialAccountFromRLP a.serializeWithPartialInfo)) =
      .ok roundTrippedAccount ∧
    roundTrippedAccount.nonce = .ok 5 ∧
    roundTrippedAccount.balance = .error (.notLoaded "balance") ∧
    roundTrippedAccount.storageRoot = .error (.notLoaded "storageRoot") ∧
    roundTrippedAccount.codeHash = .error (.notLoaded "codeHash") ∧
    roundTrippedAccount.codeSize = .error (.notLoaded "codeSize") ∧
    roundTrippedAccount.version = .error (.notLoaded "version") :=
  ⟨by decide, rfl, rfl, rfl, rfl, rfl, rfl⟩

/-- Reduction of the Except monad's bind on an ok value. -/
theorem exceptBind_ok {ε α β : Type} (a : α) (f : α → Except ε β) :
    (Except.ok a : Except ε α) >>= f = f a := rfl

/-- Reduction of the Except monad's bind on an error. -/
theorem exceptBind_error {ε α β : Type} (e : ε) (f : α → Except ε β) :
    (Except.error e : Except ε α) >>= f = .error e := rfl

/-- Reduction of the Except monad's pure. -/
theorem exceptPure {ε α : Type} (a : α) : (pure a : Except ε α) = .ok a := rfl

/-- Reduction of the Except functor's map on an ok value. -/
theorem exceptMap_ok {ε α β : Type} (a : α) (f : α → β) :
    f <$> (Except.ok a : Except ε α) = .ok (f a) := rfl

/-- Reduction of the Except functor's map on an error. -/
theorem exceptMap_error {ε α β : Type} (e : ε) (f : α → β) :
    f <$> (Except.error e : Except ε α) = .error e := rfl

/-- C2 counterexample: an Account with nonce absent but balance present
and non-zero makes `isEmpty()` return the boolean `false` rather than
fail, because the balance disjunct short-circuits before the nonce value
is read. -/
theorem claim2_counterexample :
    Account.isEmpty
      { _nonce := none, _balance := some 1, _storageRoot := none, _codeHash := none,
        _codeSize := none, _version := none } = .ok false := by
  decide

/-- C2 (amended): for every Account whose nonce field is absent,
`isEmpty()` fails with the `NotLoaded` accessor failure whenever the
balance field is absent or holds zero (the short-circuit branch reads the
nonce through the failing accessor), and returns `false` without failing
when the balance is present and non-zero. -/
theorem claim2_isEmpty_nonce_absent :
    ∀ a : Account, a._nonce = none →
      ((a._balance = none ∨ a._balance = some 0) →
        a.isEmpty = .error (.notLoaded "nonce")) ∧
      (∀ b : Int, a._balance = some b → b ≠ 0 → a.isEmpty = .ok false) := by
  intro a hn
  obtain ⟨n, b, s, c, cs, v⟩ := a
  simp only [Account.mk.injEq] at hn ⊢
  subst hn
  constructor
  · rintro (hb | hb) <;> subst hb <;>
      simp [Account.isEmpty, Account.nonce, Account.balance, exceptBind_ok,
        exceptBind_error, exceptPure, exceptMap_ok, exceptMap_error]
  · rintro b' hb hbne
    subst hb
    simp [Account.isEmpty, Account.nonce, Account.balance, exceptBind_ok,
      exceptBind_error, exceptPure, exceptMap_ok, exceptMap_error, hbne]

/-- Closed instance of the amended C2 obtained from
`claim2_isEmpty_nonce_absent`. -/
theorem claim2_witness :
    Account.isEmpty
      { _nonce := none, _balance := none, _storageRoot := none, _codeHash := none,
        _codeSize := none, _version := none } = .error (.notLoaded "nonce") :=
  (claim2_isEmpty_nonce_absent
    { _nonce := none, _balance := none, _storageRoot := none, _codeHash := none,
      _codeSize := none, _version := none } rfl).1 (Or.inl rfl)

/-- C8: on every 4-tuple whose storageRoot and codeHash are each either
the respective default constant or a non-default 32-byte value,
`accountBodyFromSlim` undoes `accountBodyToSlim`, and `accountBodyToSlim`
replaces exactly the default-valued fields with zero-length byte strings,
passing every other value through unchanged. -/
theorem claim8_slim_roundtrip :
    ∀ n b sr ch : Bytes,
      (sr = KECCAK256_RLP ∨ (sr.length = 32 ∧ sr ≠ KECCAK256_RLP)) →
      (ch = KECCAK256_NULL ∨ (ch.length = 32 ∧ ch ≠ KECCAK256_NULL)) →
      accountBodyFromSlim (accountBodyToSlim (n, b, sr, ch)) = (n, b, sr, ch) ∧
      accountBodyToSlim (n, b, sr, ch) =
        (n, b, if sr = KECCAK256_RLP then [] else sr,
         if ch = KECCAK256_NULL then [] else ch) := by
  intro n b sr ch hsr hch
  constructor
  · rcases hsr with rfl | ⟨hsrlen, hsrne⟩ <;> rcases hch with rfl | ⟨hchlen, hchne⟩
    · simp [accountBodyToSlim, accountBodyFromSlim, equalsBytes]
    · simp [accountBodyToSlim, accountBodyFromSlim, equalsBytes, hchne, hchlen]
    · simp [accountBodyToSlim, accountBodyFromSlim, equalsBytes, hsrne, hsrlen]
    · simp [accountBodyToSlim, accountBodyFromSlim, equalsBytes, hsrne, hsrlen, hchne, hchlen]
  · simp [accountBodyToSlim, equalsBytes]

/-- Closed instance of C8 obtained from `claim8_slim_roundtrip`: the
storageRoot is the default constant, the codeHash a non-default 32-byte
value. -/
theorem claim8_witness :
    accountBodyFromSlim (accountBodyToSlim ([1], [2], KECCAK256_RLP, List.replicate 32 1)) =
      ([1], [2], KECCAK256_RLP, List.replicate 32 1) ∧
    accountBodyToSlim ([1], [2], KECCAK256_RLP, List.replicate 32 1) =
      ([1], [2], (if KECCAK256_RLP = KECCAK256_RLP then [] else KECCAK256_RLP),
       (if List.replicate 32 1 = KECCAK256_NULL then [] else List.replicate 32 1)) :=
  claim8_slim_roundtrip [1] [2] KECCAK256_RLP (List.replicate 32 1)
    (Or.inl rfl) (Or.inr ⟨by decide, by decide⟩)

/-- The `_validate` step succeeds exactly when no present field violates
its bound. -/
theorem validate_ok_iff (n b : Option Int) (sr ch : Option Bytes) (cs vv : Option Int) :
    Account._validate ⟨n, b, sr, ch, cs, vv⟩ = .ok () ↔
      ¬ fieldBoundViolation n b sr ch cs := by
  rcases n with _ | x <;> rcases b with _ | y <;> rcases sr with _ | u <;>
    rcases ch with _ | w <;> rcases cs with _ | z <;>
      simp [Account._validate, fieldBoundViolation] <;> split_ifs <;> simp_all

/-- The `_validate` step returns unit or an `InvalidInput` failure. -/
theorem validate_total (n b : Option Int) (sr ch : Option Bytes) (cs vv : Option Int) :
    Account._validate ⟨n, b, sr, ch, cs, vv⟩ = .ok () ∨
      ∃ m, Account._validate ⟨n, b, sr, ch, cs, vv⟩ = .error (.invalidInput m) := by
  unfold Account._validate
  split_ifs <;> simp

/-- The base constructor is the `_validate` check applied after the
codeSize-inference step; the inferred codeSize never introduces or removes
a bound violation. -/
theorem newAccount_validate (n b : Option Int) (sr ch : Option Bytes) (cs vv : Option Int) :
    ∃ cs2 : Option Int,
      ((∃ x, cs2 = some x ∧ x < 0) ↔ (∃ x, cs = some x ∧ x < 0)) ∧
      newAccount n b sr ch cs vv =
        match Account._validate ⟨n, b, sr, ch, cs2, vv⟩ with
        | .ok _ => .ok ⟨n, b, sr, ch, cs2, vv⟩
        | .error e => .error e := by
  rcases cs with _ | z
  · rcases ch with _ | w
    · refine ⟨none, Iff.rfl, ?_⟩
      cases h : Account._validate ⟨n, b, sr, none, none, vv⟩ <;>
        simp [newAccount, exceptBind_ok, exceptBind_error, exceptPure, h]
    · by_cases hc : equalsBytes w KECCAK256_NULL
      · refine ⟨some 0, by simp, ?_⟩
        cases h : Account._validate ⟨n, b, sr, some w, some 0, vv⟩ <;>
          simp [newAccount, Account.isContract, hc, exceptBind_ok, exceptBind_error,
            exceptPure, h]
      · refine ⟨none, Iff.rfl, ?_⟩
        cases h : Account._validate ⟨n, b, sr, some w, none, vv⟩ <;>
          simp [newAccount, Account.isContract, hc, exceptBind_ok, exceptBind_error,
            exceptPure, h]
  · refine ⟨some z, Iff.rfl, ?_⟩
    cases h : Account._validate ⟨n, b, sr, ch, some z, vv⟩ <;>
      simp [newAccount, exceptBind_ok, exceptBind_error, exceptPure, h]

/-- C7: construction through the base constructor fails with
`InvalidInput` if and only if some present field violates its bound — a
present nonce or balance is negative, a present storageRoot or codeHash is
not exactly 32 bytes, or a present codeSize is negative — and absent
fields bypass their checks, so any mix of absent and in-bound present
fields succeeds. -/
theorem claim7_constructor_validation :
    ∀ (n b : Option Int) (sr ch : Option Bytes) (cs v : Option Int),
      ((∃ m, newAccount n b sr ch cs v = .error (.invalidInput m)) ↔
        fieldBoundViolation n b sr ch cs) ∧
      (¬ fieldBoundViolation n b sr ch cs →
        ∃ a, newAccount n b sr ch cs v = .ok a) := by
  intro n b sr ch cs v
  obtain ⟨cs2, hcs2, heq⟩ := newAccount_validate n b sr ch cs v
  have hviol : fieldBoundViolation n b sr ch cs2 ↔ fieldBoundViolation n b sr ch cs := by
    unfold fieldBoundViolation
    rw [hcs2]
  constructor
  · rw [heq]
    rcases validate_total n b sr ch cs2 v with hok | ⟨m, herr⟩
    · have hnv : ¬ fieldBoundViolation n b sr ch cs2 :=
        (validate_ok_iff n b sr ch cs2 v).mp hok
      rw [hok]
      simp only [iff_false, ← hviol]
      constructor
      · rintro ⟨m, hm⟩
        exact absurd hm (by simp)
      · intro hv
        exact absurd hv hnv
    · have hnok : Account._validate ⟨n, b, sr, ch, cs2, v⟩ ≠ .ok () := by
        rw [herr]; simp
      have hv : fieldBoundViolation n b sr ch cs2 :=
        not_not.mp (fun hnv => hnok ((validate_ok_iff n b sr ch cs2 v).mpr hnv))
      rw [herr]
      simp only [hviol.mp hv, iff_true]
      exact ⟨m, rfl⟩
  · intro hnv
    rw [heq, (validate_ok_iff n b sr ch cs2 v).mpr (fun hv => hnv (hviol.mp hv))]
    exact ⟨_, rfl⟩

/-- Closed instance of C7 obtained from `claim7_constructor_validation`:
all six fields present with the default values construct successfully. -/
theorem claim7_witness :
    ∃ a, newAccount (some 0) (some 0) (some KECCAK256_RLP) (some KECCAK256_NULL)
      (some 0) (some 0) = .ok a :=
  (claim7_constructor_validation (some 0) (some 0) (some KECCAK256_RLP)
    (some KECCAK256_NULL) (some 0) (some 0)).2 (by
      unfold fieldBoundViolation
      simp
      exact ⟨by decide, by decide⟩)

/-- Every byte of a keccak-256 digest is below 256. -/
theorem keccak256_mem_lt (bs : Bytes) : ∀ x ∈ keccak256 bs, x < 256 := by
  intro x hx
  simp only [keccak256, laneToBytes, List.mem_append, List.mem_map, List.mem_range] at hx
  rcases hx with ((⟨i, _, rfl⟩ | ⟨i, _, rfl⟩) | ⟨i, _, rfl⟩) | ⟨i, _, rfl⟩ <;>
    exact Nat.mod_lt _ (by norm_num)

/-- Length of a keccak-256 digest. -/
theorem keccak256_length (bs : Bytes) : (keccak256 bs).length = 32 := by
  simp [keccak256, laneToBytes]

/-- Indexed form of `keccak256_mem_lt`. -/
theorem keccak256_getD_lt (bs : Bytes) (i : Nat) : (keccak256 bs).getD i 0 < 256 := by
  by_cases h : i < (keccak256 bs).length
  · rw [List.getD_eq_getElem _ _ h]
    exact keccak256_mem_lt bs _ (List.getElem_mem h)
  · rw [List.getD_eq_default _ _ (Nat.le_of_not_lt h)]
    norm_num

/-- Unfolding of `bytesToHexCodes` on a cons. -/
theorem bytesToHexCodes_cons (b : Nat) (bs : Bytes) :
    bytesToHexCodes (b :: bs) =
      hexDigitCode (b / 16) :: hexDigitCode (b % 16) :: bytesToHexCodes bs := by
  simp [bytesToHexCodes]

/-- Length of the hex rendering: two characters per byte. -/
theorem bytesToHexCodes_length (bs : Bytes) :
    (bytesToHexCodes bs).length = 2 * bs.length := by
  induction bs with
  | nil => simp [bytesToHexCodes]
  | cons b bs ih => simp [bytesToHexCodes_cons, ih]; omega

/-- Character `2k` (resp. `2k + 1`) of the hex rendering is the high
(resp. low) nibble of byte `k`. -/
theorem bytesToHexCodes_getD (bs : Bytes) (k : Nat) (hk : k < bs.length) :
    (bytesToHexCodes bs).getD (2 * k) 0 = hexDigitCode (bs.getD k 0 / 16) ∧
    (bytesToHexCodes bs).getD (2 * k + 1) 0 = hexDigitCode (bs.getD k 0 % 16) := by
  induction bs generalizing k with
  | nil => simp at hk
  | cons b bs ih =>
    rcases k with _ | k
    · simp [bytesToHexCodes_cons]
    · have h2 : 2 * (k + 1) = 2 * k + 1 + 1 := by omega
      rw [bytesToHexCodes_cons, h2]
      simp only [List.getD_cons_succ, List.getD_cons_zero]
      exact ih k (by simpa using Nat.lt_of_succ_lt_succ hk)

/-- Character `i` of the hex rendering is nibble `i`. -/
theorem bytesToHexCodes_getD_nibble (bs : Bytes) (i : Nat) (h : i < 2 * bs.length) :
    (bytesToHexCodes bs).getD i 0 = hexDigitCode (hexNibble bs i) := by
  have hk : i / 2 < bs.length := by omega
  by_cases hp : i % 2 = 0
  · have hi : 2 * (i / 2) = i := by omega
    have := (bytesToHexCodes_getD bs (i / 2) hk).1
    rw [hi] at this
    rw [this, hexNibble, if_pos hp]
  · have hi : 2 * (i / 2) + 1 = i := by omega
    have := (bytesToHexCodes_getD bs (i / 2) hk).2
    rw [hi] at this
    rw [this, hexNibble, if_neg hp]

/-- Every nibble of a keccak-256 digest is below 16. -/
theorem hexNibble_keccak_lt (bs : Bytes) (i : Nat) : hexNibble (keccak256 bs) i < 16 := by
  have := keccak256_getD_lt bs (i / 2)
  unfold hexNibble
  split_ifs <;> omega

/-- Round trip of a nibble through its hex character. -/
theorem hexCharVal_hexDigitCode : ∀ v < 16, hexCharVal (hexDigitCode v) = some v := by
  decide

/-- Pointwise description of `checksumMap`. -/
theorem checksumMap_getD :
    ∀ (addr hash : List Nat) (i : Nat), i < addr.length → i < hash.length →
      (checksumMap hash addr).getD i 0 =
        if (match hexCharVal (hash.getD i 0) with
            | some v => decide (8 ≤ v) | none => false) then
          toUpperCode (addr.getD i 0)
        else addr.getD i 0 := by
  intro addr
  induction addr with
  | nil => intro hash i hi; simp at hi
  | cons a as ih =>
    intro hash i hi hh
    match hash with
    | [] => simp at hh
    | h :: hs =>
      match i with
      | 0 => simp [checksumMap]
      | j + 1 =>
        simp only [checksumMap, List.getD_cons_succ]
        exact ih hs j (by simpa using Nat.lt_of_succ_lt_succ hi)
          (by simpa using Nat.lt_of_succ_lt_succ hh)

set_option maxRecDepth 200000 in
/-- C3: `toChecksumAddress` with no chainId implements the EIP-55 rule —
character `i` of the 40-character address is uppercased iff hex digit `i`
of keccak-256 of the lowercase address is at least 8 — and maps the two
EIP-55 test vectors to their checksummed renderings. -/
theorem claim3_eip55_checksum :
    (∀ (s r : List Nat), toChecksumAddress s none = .ok r →
      ((strip0x s).map toLowerCode).length = 40 →
      ∀ i, i < 40 →
        r.getD (2 + i) 0 =
          (if 8 ≤ hexNibble (keccak256 ((strip0x s).map toLowerCode)) i then
            toUpperCode (((strip0x s).map toLowerCode).getD i 0)
          else ((strip0x s).map toLowerCode).getD i 0)) ∧
    toChecksumAddress (strCodes "0x5aaeb6053f3e94c9b9a09f33669435e7ef1beaed") none =
      .ok (strCodes "0x5aAeb6053F3E94C9b9A09f33669435E7Ef1BeAed") ∧
    toChecksumAddress (strCodes "0xfb6916095ca1df60bb79ce92ce3ea74c37c5d359") none =
      .ok (strCodes "0xfB6916095ca1df60bB79Ce92cE3Ea74c37c5d359") := by
  refine ⟨?_, by decide, by decide⟩
  intro s r hok hlen i hi
  by_cases hhex : isHexStringCodes s
  case neg => simp [toChecksumAddress, hhex] at hok
  case pos =>
    simp [toChecksumAddress, hhex, chainPfx] at hok
    subst hok
    have hi40 : i < ((strip0x s).map toLowerCode).length := by omega
    have hh64 : i <
        (bytesToHexCodes (keccak256 ((strip0x s).map toLowerCode))).length := by
      rw [bytesToHexCodes_length, keccak256_length]
      omega
    have h2 : (2 : Nat) + i = i + 1 + 1 := by omega
    rw [h2]
    simp only [List.cons_append, List.nil_append, List.getD_cons_succ]
    rw [checksumMap_getD _ _ i hi40 hh64,
      bytesToHexCodes_getD_nibble _ i (by rw [keccak256_length]; omega),
      hexCharVal_hexDigitCode _ (hexNibble_keccak_lt _ i)]
    simp

set_option maxRecDepth 200000 in
/-- Closed instance of C3's rule at character 2 of the first test vector,
obtained from `claim3_eip55_checksum`. -/
theorem claim3_witness :
    (strCodes "0x5aAeb6053F3E94C9b9A09f33669435E7Ef1BeAed").getD (2 + 2) 0 =
      (if 8 ≤ hexNibble
          (keccak256 ((strip0x
            (strCodes "0x5aaeb6053f3e94c9b9a09f33669435e7ef1beaed")).map toLowerCode)) 2 then
        toUpperCode (((strip0x
          (strCodes "0x5aaeb6053f3e94c9b9a09f33669435e7ef1beaed")).map toLowerCode).getD 2 0)
      else ((strip0x
        (strCodes "0x5aaeb6053f3e94c9b9a09f33669435e7ef1beaed")).map toLowerCode).getD 2 0) :=
  claim3_eip55_checksum.1 (strCodes "0x5aaeb6053f3e94c9b9a09f33669435e7ef1beaed")
    (strCodes "0x5aAeb6053F3E94C9b9A09f33669435E7Ef1BeAed") (by decide) (by decide) 2
    (by decide)

/-- Lowercasing an ASCII character code is idempotent. -/
theorem toLowerCode_idem (a : Nat) : toLowerCode (toLowerCode a) = toLowerCode a := by
  unfold toLowerCode
  split_ifs <;> omega

/-- Lowercasing undoes uppercasing on a character that is not
uppercase. -/
theorem toLowerCode_toUpperCode (a : Nat) (h : toLowerCode a = a) :
    toLowerCode (toUpperCode a) = a := by
  have h' : ¬(65 ≤ a ∧ a ≤ 90) := by
    intro hc
    rw [toLowerCode, if_pos hc] at h
    omega
  unfold toUpperCode toLowerCode
  split_ifs <;> omega

/-- Lowercasing preserves the hex character class. -/
theorem isHexCharCode_toLowerCode (a : Nat) (h : isHexCharCode a = true) :
    isHexCharCode (toLowerCode a) = true := by
  simp only [isHexCharCode, toLowerCode, decide_eq_true_eq] at *
  split_ifs <;> omega

/-- Uppercasing preserves the hex character class. -/
theorem isHexCharCode_toUpperCode (a : Nat) (h : isHexCharCode a = true) :
    isHexCharCode (toUpperCode a) = true := by
  simp only [isHexCharCode, toUpperCode, decide_eq_true_eq] at *
  split_ifs <;> omega

/-- Lowercasing undoes a conditional uppercasing of a non-uppercase
character. -/
theorem toLowerCode_ite_upper (b : Bool) (a : Nat) (h : toLowerCode a = a) :
    toLowerCode (if b then toUpperCode a else a) = a := by
  cases b
  · simpa using h
  · simpa using toLowerCode_toUpperCode a h

/-- Conditional uppercasing preserves the hex character class. -/
theorem isHexCharCode_ite_upper (b : Bool) (a : Nat) (h : isHexCharCode a = true) :
    isHexCharCode (if b then toUpperCode a else a) = true := by
  cases b
  · simpa using h
  · simpa using isHexCharCode_toUpperCode a h

/-- Lowercasing the checksummed rendering of a lowercase address gives the
address back. -/
theorem checksumMap_map_toLower (hash addr : List Nat)
    (h : ∀ a ∈ addr, toLowerCode a = a) :
    (checksumMap hash addr).map toLowerCode = addr := by
  induction addr generalizing hash with
  | nil => cases hash <;> simp [checksumMap]
  | cons a as ih =>
    have ha := h a (by simp)
    have has : ∀ x ∈ as, toLowerCode x = x := fun x hx => h x (by simp [hx])
    match hash with
    | [] => simp [checksumMap, ha, ih [] has]
    | hh :: hs => simp [checksumMap, toLowerCode_ite_upper _ a ha, ih hs has]

/-- The checksummed rendering of a hex address is made of hex
characters. -/
theorem checksumMap_all_hex (hash addr : List Nat)
    (h : ∀ a ∈ addr, isHexCharCode a = true) :
    ∀ x ∈ checksumMap hash addr, isHexCharCode x = true := by
  induction addr generalizing hash with
  | nil => intro x hx; cases hash <;> simp [checksumMap] at hx
  | cons a as ih =>
    intro x hx
    have ha := h a (by simp)
    have has : ∀ y ∈ as, isHexCharCode y = true := fun y hy => h y (by simp [hy])
    match hash with
    | [] =>
      simp only [checksumMap, List.mem_cons] at hx
      rcases hx with rfl | hx
      · exact ha
      · exact ih [] has x hx
    | hh :: hs =>
      simp only [checksumMap, List.mem_cons] at hx
      rcases hx with rfl | hx
      · exact isHexCharCode_ite_upper _ a ha
      · exact ih hs has x hx

/-- Decomposition of a string accepted by the hex-string test. -/
theorem isHexStringCodes_shape (s : List Nat) (h : isHexStringCodes s = true) :
    ∃ rest, s = 48 :: 120 :: rest ∧ ∀ a ∈ rest, isHexCharCode a = true := by
  match s with
  | [] => simp [isHexStringCodes] at h
  | [c1] => simp [isHexStringCodes] at h
  | c1 :: c2 :: rest =>
    simp only [isHexStringCodes, Bool.and_eq_true, decide_eq_true_eq,
      List.all_eq_true] at h
    obtain ⟨⟨rfl, rfl⟩, hall⟩ := h
    exact ⟨rest, rfl, hall⟩

/-- C10: `toChecksumAddress` is idempotent — whenever it succeeds,
applying it again with the same chainId to the result reproduces the
result exactly (the function lowercases its input before hashing); on a
failing input both sides fail identically. -/
theorem claim10_toChecksumAddress_idempotent :
    ∀ (s : List Nat) (chainId : Option Nat),
      ((toChecksumAddress s chainId).bind fun r => toChecksumAddress r chainId) =
        toChecksumAddress s chainId := by
  intro s chainId
  cases hhex : isHexStringCodes s
  case false =>
    simp [toChecksumAddress, hhex, Except.bind]
  case true =>
    obtain ⟨rest, rfl, hall⟩ := isHexStringCodes_shape s hhex
    have h1 : toChecksumAddress (48 :: 120 :: rest) chainId =
        .ok (48 :: 120 :: checksumMap
          (bytesToHexCodes (keccak256 (chainPfx chainId ++ rest.map toLowerCode)))
          (rest.map toLowerCode)) := by
      simp [toChecksumAddress, hhex, strip0x]
    have hlower : ∀ a ∈ rest.map toLowerCode, toLowerCode a = a := by
      intro a ha
      obtain ⟨x, _, rfl⟩ := List.mem_map.mp ha
      exact toLowerCode_idem x
    have hhexaddr : ∀ a ∈ rest.map toLowerCode, isHexCharCode a = true := by
      intro a ha
      obtain ⟨x, hx, rfl⟩ := List.mem_map.mp ha
      exact isHexCharCode_toLowerCode x (hall x hx)
    have hhex2 : isHexStringCodes (48 :: 120 :: checksumMap
        (bytesToHexCodes (keccak256 (chainPfx chainId ++ rest.map toLowerCode)))
        (rest.map toLowerCode)) = true := by
      simp only [isHexStringCodes, Bool.and_eq_true, decide_eq_true_eq,
        List.all_eq_true]
      simpa using checksumMap_all_hex _ _ hhexaddr
    have hmap : (checksumMap
        (bytesToHexCodes (keccak256 (chainPfx chainId ++ rest.map toLowerCode)))
        (rest.map toLowerCode)).map toLowerCode = rest.map toLowerCode :=
      checksumMap_map_toLower _ _ hlower
    have h2 : toChecksumAddress (48 :: 120 :: checksumMap
        (bytesToHexCodes (keccak256 (chainPfx chainId ++ rest.map toLowerCode)))
        (rest.map toLowerCode)) chainId =
        .ok (48 :: 120 :: checksumMap
          (bytesToHexCodes (keccak256 (chainPfx chainId ++ rest.map toLowerCode)))
          (rest.map toLowerCode)) := by
      simp [toChecksumAddress, hhex2, strip0x, hmap]
    rw [h1]
    exact h2

end EthUtil
